import Mathlib

/- Lean model of `src/main.rs` of the RoundTrip repository: an exhaustive
   backtracking search that counts closed tours visiting every vertex of an
   n x m grid of dots exactly once.

   Conventions of the shallow embedding:
   * machine integers are modelled as `Nat` (for `usize`) and `Int` (for
     `i64`); every reachable subtraction in the source is guarded so that
     `usize` never underflows, hence truncated `Nat` subtraction agrees;
   * the 400 x 400 boolean matrix `board` is modelled as one natural number
     whose bit `i * 400 + j` is entry `board[i][j]`;
   * the `Vec` index expression `rim_vertices[k]` can go out of bounds in
     Rust (an index panic); it is modelled in an exception monad, with
     `Fault.oob` standing for the panic;
   * the unbounded recursion of `check_board` receives an explicit fuel
     argument; `Fault.fuelOut` marks fuel exhaustion, a model artefact that
     sufficient fuel rules out (see the depth-bound theorem below);
   * `run_duration : SystemTime` and all `println!` output are wall-clock /
     I-O observations with no influence on the search state and are omitted. -/

namespace RoundTrip

/-- Constant `N_MAX` from the source. -/
def N_MAX : Nat := 20

/-- Constant `M_MAX` from the source. -/
def M_MAX : Nat := 20

/-- The `Metrics` struct from the source (without the wall-clock field
    `run_duration`). `i64` counters become `Int`, `usize` counters `Nat`. -/
structure Metrics where
  check_counter : Int
  fail_counter_1 : Int
  fail_counter_2 : Int
  fail_counter_3 : Int
  exception_counter : Int
  solutions_counter : Int
  visited_vertices : Nat
  visited_rim_vertices : Nat
deriving DecidableEq

/-- `Metrics::new()` (all counters zero). -/
def Metrics.new : Metrics :=
  { check_counter := 0, fail_counter_1 := 0, fail_counter_2 := 0,
    fail_counter_3 := 0, exception_counter := 0, solutions_counter := 0,
    visited_vertices := 0, visited_rim_vertices := 0 }

/-- Read entry `board[i][j]`: bit `i * (N_MAX * M_MAX) + j` of the board
    number. -/
def bget (b : Nat) (i j : Nat) : Bool := b.testBit (i * (N_MAX * M_MAX) + j)

/-- Write entry `board[i][j] := v` on the board number. -/
def bset (b : Nat) (i j : Nat) (v : Bool) : Nat :=
  let k := i * (N_MAX * M_MAX) + j
  if v then b ||| (1 <<< k)
  else if b.testBit k then b ^^^ (1 <<< k) else b

/-- `validate_board_size` from the source (the `println!` calls only print
    diagnostics). The parity test is the source's `(n * m) & 1 == 1`. -/
def validate_board_size (n m : Nat) : Bool :=
  if n > N_MAX || m > M_MAX then false
  else if n > m then false
  else if n * m < 12 then false
  else if n * m > 128 then false
  else if (n * m) &&& 1 == 1 then false
  else true

/-- One column `j` of the adjacency part of `initialize_board`: the bits
    `board[i][j]` for the `i` in `[0, n*m)` satisfying one of the four
    lattice-neighbour conditions of the source (`j >= n && i == j-n`,
    `j > 0 && i == j-1 && (i+1) % n != 0`, `i == j+1 && i % n != 0`,
    `i == j+n`). -/
def adjacency_col (n m j : Nat) : Nat :=
  (List.range (n * m)).foldl (fun b i =>
    if (n ≤ j ∧ i = j - n)
        ∨ (0 < j ∧ i = j - 1 ∧ (i + 1) % n ≠ 0)
        ∨ (i = j + 1 ∧ i % n ≠ 0)
        ∨ (i = j + n)
    then bset b i j true else b) 0

/-- Adjacency part of `initialize_board`: the source's nested loops
    (`for j in 0..n*m { for i in 0..n*m { .. board[i][j] = true .. } }`)
    only ever set independent single bits to `true`, so grouping the writes
    of each outer iteration `j` into `adjacency_col n m j` and or-ing the
    groups together performs exactly the same writes in the same order. -/
def init_adjacency (n m : Nat) : Nat :=
  (List.range (n * m)).foldl (fun b j => b ||| adjacency_col n m j) 0

/-- The board produced by `initialize_board`: the adjacency matrix followed
    by the two directional rim-pruning loops of the source (the diagonal
    starts all false, i.e. no vertex visited). -/
def init_board (n m : Nat) : Nat :=
  let b := init_adjacency n m
  let b := (List.range (n - 1)).foldl (fun b i =>
    let b := bset b (i + n + 1) (i + 1) false
    let b := bset b (n * (m - 2) + i) (n * (m - 1) + i) false
    let b := bset b (i + 1) i false
    bset b (n * (m - 1) + i) (n * (m - 1) + i + 1) false) b
  (List.range (m - 1)).foldl (fun b j =>
    let b := bset b (j * n + 1) (j * n) false
    let b := bset b ((j + 2) * n - 2) ((j + 2) * n - 1) false
    let b := bset b (j * n) ((j + 1) * n) false
    bset b ((j + 2) * n - 1) ((j + 1) * n - 1) false) b

/-- The clockwise rim-vertex sequence built at the end of
    `initialize_board`: `for i in 0..n`, `for j in 1..m`, `for i in 1..n`,
    `for j in 1..m-1`, pushing the source's index expressions. -/
def rim_vertices (n m : Nat) : List Nat :=
  (List.range n)
    ++ (List.range' 1 (m - 1)).map (fun j => (j + 1) * n - 1)
    ++ (List.range' 1 (n - 1)).map (fun i => n * m - 1 - i)
    ++ (List.range' 1 (m - 2)).map (fun j => n * (m - 1) - j * n)

/-- Abnormal outcomes of the modelled search: `oob` is a Rust index panic
    (`rim_vertices[k]` with `k` out of range); `fuelOut` is exhaustion of
    the explicit recursion fuel. -/
inductive Fault where
  | oob : Fault
  | fuelOut : Fault
deriving DecidableEq

/-- The mutable state threaded by reference through `check_board`. -/
structure SearchState where
  board : Nat
  solution_path : List Nat
  metrics : Metrics
deriving DecidableEq

/-- The interior-to-interior pruning in `check_board` (the four
    `direction` cases north / south / west / east); the result is the final
    value of `check_i`, i.e. `true` when the move from `v` to `i` is kept.
    The guards `v > i`, `v - i == n` etc. make every subtraction safe. -/
def prune_interior (rim : List Nat) (n : Nat) (b : Nat) (v i : Nat) : Bool :=
  if v > i && v - i == n then
    let c1 := !bget b (v + n) (v + n) && rim.contains (v - 1) && !bget b (v - 1) (v - 1)
    let c2 := (bget b (i - n) (i - n) || bget b (i - n - 1) (i - n - 1)
                || bget b (i - n + 1) (i - n + 1))
              && (!bget b (i - 1) (i - 1) && !bget b (i + 1) (i + 1))
    !(c1 || c2)
  else if v < i && i - v == n then
    let c1 := !bget b (v - n) (v - n) && rim.contains (v + 1) && !bget b (v + 1) (v + 1)
    let c2 := (bget b (i + n) (i + n) || bget b (i + n - 1) (i + n - 1)
                || bget b (i + n + 1) (i + n + 1))
              && (!bget b (i - 1) (i - 1) && !bget b (i + 1) (i + 1))
    !(c1 || c2)
  else if v > i && v - i == 1 then
    let c1 := !bget b (v + 1) (v + 1) && rim.contains (v + n) && !bget b (v + n) (v + n)
    let c2 := (bget b (i - 1) (i - 1) || bget b (i - 1 + n) (i - 1 + n)
                || bget b (i - 1 - n) (i - 1 - n))
              && (!bget b (i + n) (i + n) && !bget b (i - n) (i - n))
    !(c1 || c2)
  else if v < i && i - v == 1 then
    let c2 := (bget b (i + 1) (i + 1) || bget b (i + 1 + n) (i + 1 + n)
                || bget b (i + 1 - n) (i + 1 - n))
              && (!bget b (i + n) (i + n) && !bget b (i - n) (i - n))
    !c2
  else true

/-- The `for j in 0..n*m` scan of `check_board` that opens a return edge:
    every `j` with `board[next_rim_vertice][j] && !rim.contains(j) &&
    !board[j][j]` gets `board[j][next_rim_vertice] := true` and is stored in
    `(store_j, store_next_rim_vertice)`, and `check_i` becomes `true`.
    The accumulator is `(board, store_j, store_next_rim_vertice, check_i)`. -/
def open_return_scan (rim : List Nat) (next_rim : Nat) :
    List Nat → Nat × Nat × Nat × Bool → Nat × Nat × Nat × Bool
  | [], acc => acc
  | j :: rest, (b, sj, sn, ci) =>
    if bget b next_rim j && !rim.contains j && !bget b j j then
      open_return_scan rim next_rim rest (bset b j next_rim true, j, next_rim, true)
    else
      open_return_scan rim next_rim rest (b, sj, sn, ci)

/-- One neighbour decision of `check_board` for a candidate `i` (reached
    with `board[v][i] && !board[i][i]`): computes the final `check_i`
    together with the possibly changed board and stored return edge.  When
    `v` is at the rim and `i` is interior the source reads
    `rim_vertices[metrics.visited_rim_vertices]`, which is an index panic
    (`Fault.oob`) when that counter is not below the rim length. -/
def neighbor_gate (rim : List Nat) (n m : Nat) (at_rim : Bool) (v i : Nat)
    (s : SearchState) (sj sn : Nat) :
    Except Fault (SearchState × Nat × Nat × Bool) :=
  if at_rim then
    if rim.contains i then .ok (s, sj, sn, true)
    else
      match rim[s.metrics.visited_rim_vertices]? with
      | none => .error .oob
      | some next_rim =>
        match open_return_scan rim next_rim (List.range (n * m))
                (s.board, sj, sn, false) with
        | (b2, sj2, sn2, ci) => .ok ({ s with board := b2 }, sj2, sn2, ci)
  else if rim.contains i then .ok (s, sj, sn, true)
  else .ok (s, sj, sn, prune_interior rim n s.board v i)

/-- The `for i in 0..n*m` neighbour loop of `check_board`.  The recursive
    call at the smaller fuel is passed in as `f`.  The accumulator is the
    search state together with the `store_j` / `store_next_rim_vertice`
    locals (which persist across iterations). -/
def check_neighbors (f : SearchState → Nat → Except Fault SearchState)
    (rim : List Nat) (n m : Nat) (at_rim : Bool) (v : Nat) :
    List Nat → SearchState × Nat × Nat → Except Fault (SearchState × Nat × Nat)
  | [], acc => .ok acc
  | i :: rest, (s, sj, sn) =>
    if bget s.board v i && !bget s.board i i then
      match neighbor_gate rim n m at_rim v i s sj sn with
      | .error e => .error e
      | .ok (s1, sj1, sn1, ci) =>
        if ci then
          match f { s1 with metrics :=
              { s1.metrics with
                visited_vertices := s1.metrics.visited_vertices + 1 } } i with
          | .error e => .error e
          | .ok s2 =>
            check_neighbors f rim n m at_rim v rest
              ({ s2 with metrics :=
                  { s2.metrics with
                    visited_vertices := s2.metrics.visited_vertices - 1 } }, sj1, sn1)
        else
          check_neighbors f rim n m at_rim v rest (s1, sj1, sn1)
    else
      check_neighbors f rim n m at_rim v rest (s, sj, sn)

/-- Metrics updates at the entry of `check_board`: `check_counter += 1`,
    and `visited_rim_vertices += 1` when the entered vertex is a rim
    vertex. -/
def enter_metrics (rim : List Nat) (v : Nat) (mt : Metrics) : Metrics :=
  let m1 := { mt with check_counter := mt.check_counter + 1 }
  if rim.contains v then
    { m1 with visited_rim_vertices := m1.visited_rim_vertices + 1 }
  else m1

/-- `check_board` from the source, with explicit fuel.  One call: the entry
    metrics updates; if `v` is a rim vertex the rim-exhaustion rejection may
    fire; then the completion check; otherwise mark `v`, push it, run the
    neighbour loop, and on exit unmark `v`, pop it, reset
    `board[store_j][store_next_rim_vertice]` and count a backtrack in
    `fail_counter_3`. -/
def check_board (rim : List Nat) (n m : Nat) :
    Nat → SearchState → Nat → Except Fault SearchState
  | 0, _, _ => .error .fuelOut
  | fuel + 1, s, v =>
    let m2 := enter_metrics rim v s.metrics
    if rim.contains v ∧ m2.visited_rim_vertices = rim.length
        ∧ m2.visited_vertices + 1 < n * m then
      .ok { s with metrics := { m2 with fail_counter_2 := m2.fail_counter_2 + 1 } }
    else if m2.visited_vertices + 1 = n * m then
      .ok { s with metrics := { m2 with solutions_counter := m2.solutions_counter + 1 } }
    else
      match check_neighbors (check_board rim n m fuel) rim n m (rim.contains v) v
              (List.range (n * m))
              ({ board := bset s.board v v true,
                 solution_path := s.solution_path ++ [v],
                 metrics := m2 }, 0, 0) with
      | .error e => .error e
      | .ok (s2, sj, sn) =>
        .ok { board := bset (bset s2.board v v false) sj sn false,
              solution_path := s2.solution_path.dropLast,
              metrics := { s2.metrics with fail_counter_3 := s2.metrics.fail_counter_3 + 1 } }

/-- One full run as `main` performs it for a validated `(n, m)`: a fresh
    zero board put through `initialize_board`, an empty solution path,
    fresh metrics, and `check_board` started at vertex `0`. -/
def run_board (n m fuel : Nat) : Except Fault SearchState :=
  check_board (rim_vertices n m) n m fuel
    { board := init_board n m, solution_path := [], metrics := Metrics.new } 0

/-- Bit mask of the diagonal entries `board[i][i]` of the modelled
    400 x 400 matrix. -/
def diag_mask : Nat :=
  (List.range (N_MAX * M_MAX)).foldl
    (fun a i => a ||| (1 <<< (i * (N_MAX * M_MAX) + i))) 0

/-- Off-diagonal part of a board number (the edge entries, without the
    visited flags). -/
def off_diag (b : Nat) : Nat := b - (b &&& diag_mask)

/-- Off-diagonal entries of `b` that are not present in the reference board
    `b0`: the return edges currently open relative to `b0`. -/
def extra_off (b0 b : Nat) : Nat :=
  off_diag ((b ||| b0) - b0)

/-- Whether a board has at least two off-diagonal entries beyond `b0`
    (a number with at least two bits set). -/
def two_extra (b0 b : Nat) : Bool :=
  let d := extra_off b0 b
  decide (d &&& (d - 1) ≠ 0)

/-- Search state of the instrumented copy of `check_board`, extended with
    ghost observations that do not influence the search: the accepted tours
    (the solution path plus the current vertex at each acceptance), whether
    some call ever began with two or more return edges open relative to the
    reference board `b0`, and whether every completed call restored the
    off-diagonal board entries it found at entry. -/
structure GState where
  board : Nat
  solution_path : List Nat
  metrics : Metrics
  tours : List (List Nat)
  multi_open : Bool
  all_restored : Bool
deriving DecidableEq

/-- Instrumented copy of `neighbor_gate` (identical decision logic). -/
def neighbor_gate_g (rim : List Nat) (n m : Nat) (at_rim : Bool) (v i : Nat)
    (s : GState) (sj sn : Nat) :
    Except Fault (GState × Nat × Nat × Bool) :=
  if at_rim then
    if rim.contains i then .ok (s, sj, sn, true)
    else
      match rim[s.metrics.visited_rim_vertices]? with
      | none => .error .oob
      | some next_rim =>
        let r := open_return_scan rim next_rim (List.range (n * m))
                   (s.board, sj, sn, false)
        .ok ({ s with board := r.1 }, r.2.1, r.2.2.1, r.2.2.2)
  else if rim.contains i then .ok (s, sj, sn, true)
  else .ok (s, sj, sn, prune_interior rim n s.board v i)

/-- Instrumented copy of the neighbour loop.  A fault is propagated
    together with the ghost state reached so far. -/
def check_neighbors_g (f : GState → Nat → GState × Option Fault)
    (rim : List Nat) (n m : Nat) (at_rim : Bool) (v : Nat) :
    List Nat → GState × Nat × Nat → (GState × Nat × Nat) × Option Fault
  | [], acc => (acc, none)
  | i :: rest, (s, sj, sn) =>
    if bget s.board v i && !bget s.board i i then
      match neighbor_gate_g rim n m at_rim v i s sj sn with
      | .error e => ((s, sj, sn), some e)
      | .ok (s1, sj1, sn1, ci) =>
        if ci then
          let s1 := { s1 with metrics :=
            { s1.metrics with visited_vertices := s1.metrics.visited_vertices + 1 } }
          match f s1 i with
          | (s2, some e) => ((s2, sj1, sn1), some e)
          | (s2, none) =>
            let s2 := { s2 with metrics :=
              { s2.metrics with visited_vertices := s2.metrics.visited_vertices - 1 } }
            check_neighbors_g f rim n m at_rim v rest (s2, sj1, sn1)
        else
          check_neighbors_g f rim n m at_rim v rest (s1, sj1, sn1)
    else
      check_neighbors_g f rim n m at_rim v rest (s, sj, sn)

/-- Instrumented copy of `check_board` over `GState`: the search decisions
    and state updates are exactly those of `check_board`; in addition every
    call entry samples whether two return edges are open relative to the
    reference board `b0`, every acceptance records the accepted tour, and
    every completed call checks that the off-diagonal entries of the board
    at exit equal those at entry. -/
def check_board_g (b0 : Nat) (rim : List Nat) (n m : Nat) :
    Nat → GState → Nat → GState × Option Fault
  | 0, s, _ => (s, some .fuelOut)
  | fuel + 1, s, v =>
    let s := { s with multi_open := s.multi_open || two_extra b0 s.board }
    let entry_off := off_diag s.board
    let m1 := { s.metrics with check_counter := s.metrics.check_counter + 1 }
    let at_rim := rim.contains v
    let m2 := if at_rim then
        { m1 with visited_rim_vertices := m1.visited_rim_vertices + 1 }
      else m1
    if at_rim ∧ m2.visited_rim_vertices = rim.length
        ∧ m2.visited_vertices + 1 < n * m then
      ({ s with metrics := { m2 with fail_counter_2 := m2.fail_counter_2 + 1 } }, none)
    else if m2.visited_vertices + 1 = n * m then
      ({ s with
          metrics := { m2 with solutions_counter := m2.solutions_counter + 1 },
          tours := s.tours ++ [s.solution_path ++ [v]] }, none)
    else
      let s1 : GState :=
        { s with
          board := bset s.board v v true,
          solution_path := s.solution_path ++ [v],
          metrics := m2 }
      match check_neighbors_g (check_board_g b0 rim n m fuel) rim n m at_rim v
              (List.range (n * m)) (s1, 0, 0) with
      | ((s2, _, _), some e) => (s2, some e)
      | ((s2, sj, sn), none) =>
        let exit_board := bset (bset s2.board v v false) sj sn false
        ({ s2 with
            board := exit_board,
            solution_path := s2.solution_path.dropLast,
            metrics := { s2.metrics with fail_counter_3 := s2.metrics.fail_counter_3 + 1 },
            all_restored := s2.all_restored && (off_diag exit_board == entry_off) },
          none)

/-- Instrumented full run for a validated `(n, m)`, mirroring `run_board`. -/
def run_g (n m fuel : Nat) : GState × Option Fault :=
  let b0 := init_board n m
  check_board_g b0 (rim_vertices n m) n m fuel
    { board := b0, solution_path := [], metrics := Metrics.new,
      tours := [], multi_open := false, all_restored := true } 0

/-- Projection of the instrumented state onto the search state. -/
def proj_g (gs : GState) : SearchState :=
  { board := gs.board, solution_path := gs.solution_path, metrics := gs.metrics }

/-- Instrumented result seen as a plain search result. -/
def g_to_except (p : GState × Option Fault) : Except Fault SearchState :=
  match p.2 with
  | some e => .error e
  | none => .ok (proj_g p.1)

/-- Instrumented loop accumulator seen as a plain loop result. -/
def gacc_to_except (p : (GState × Nat × Nat) × Option Fault) :
    Except Fault (SearchState × Nat × Nat) :=
  match p.2 with
  | some e => .error e
  | none => .ok (proj_g p.1.1, p.1.2.1, p.1.2.2)

/-- Solutions counter of a successful run. -/
def run_solutions (r : Except Fault SearchState) : Option Int :=
  match r with
  | .ok s => some s.metrics.solutions_counter
  | .error _ => none

/-- Fault of a failed run. -/
def run_fault (r : Except Fault SearchState) : Option Fault :=
  match r with
  | .ok _ => none
  | .error e => some e

/-- Vertex 0's visited flag in a run result (the `board[0][0]` diagonal
    entry), for observing the unconditional reset of
    `board[store_j][store_next_rim_vertice]` with its default `(0, 0)`. -/
def result_board00 (r : Except Fault SearchState) : Option Bool :=
  match r with
  | .ok s => some (bget s.board 0 0)
  | .error _ => none

/-- The state of the first recursive call of the 2 x 6 run: the root call at
    vertex 0 has incremented `check_counter` and `visited_rim_vertices`,
    marked vertex 0 visited and pushed it, and descends into its first
    unvisited neighbour, vertex 1, after `visited_vertices += 1`. -/
def first_child_entry : SearchState :=
  { board := bset (init_board 2 6) 0 0 true,
    solution_path := [0],
    metrics := { Metrics.new with
      check_counter := 1, visited_vertices := 1, visited_rim_vertices := 1 } }

/-- Boundary vertex of the n x m grid in the spec's row-major coordinates:
    vertex `v` sits at row `v / n`, column `v % n`, and is on the rim when
    it lies in the first or last row or the first or last column. -/
def on_boundary (n m v : Nat) : Prop :=
  v / n = 0 ∨ v / n = m - 1 ∨ v % n = 0 ∨ v % n = n - 1

/-- Top row of the clockwise rim walk in the spec's wording: the top row
    left to right. -/
def rim_top_spec (n : Nat) : List Nat := List.range n

/-- Right column of the clockwise rim walk: rows `1` to `m-1` of column
    `n-1`, top to bottom. -/
def rim_right_spec (n m : Nat) : List Nat :=
  (List.range' 1 (m - 1)).map (fun j => j * n + (n - 1))

/-- Bottom row of the clockwise rim walk: columns `n-2` down to `0` of row
    `m-1`, right to left. -/
def rim_bottom_spec (n m : Nat) : List Nat :=
  (List.range' 1 (n - 1)).map (fun i => (m - 1) * n + (n - 1) - i)

/-- Left column of the clockwise rim walk: rows `m-2` down to `1` of column
    `0`, bottom to top. -/
def rim_left_spec (n m : Nat) : List Nat :=
  (List.range' 1 (m - 2)).map (fun j => (m - 1 - j) * n)

/-- Unfolding of `validate_board_size` into its arithmetic meaning. -/
theorem validate_board_size_eq (n m : Nat) :
    validate_board_size n m = true ↔
      n ≤ 20 ∧ m ≤ 20 ∧ n ≤ m ∧ 12 ≤ n * m ∧ n * m ≤ 128 ∧ n * m % 2 = 0 := by
  simp only [validate_board_size, N_MAX, M_MAX]
  split_ifs with h1 h2 h3 h4 h5 <;>
    (simp_all [Nat.and_one_is_mod]; try omega)

/-- The gate of a neighbour candidate can change the board (opening a
    return edge) but never the metrics or the solution path. -/
theorem neighbor_gate_frame (rim : List Nat) (n m : Nat) (at_rim : Bool)
    (v i : Nat) (s : SearchState) (sj sn : Nat)
    (r : SearchState × Nat × Nat × Bool)
    (h : neighbor_gate rim n m at_rim v i s sj sn = .ok r) :
    r.1.metrics = s.metrics ∧ r.1.solution_path = s.solution_path := by
  unfold neighbor_gate at h
  split at h
  · split at h
    · cases h; exact ⟨rfl, rfl⟩
    · split at h
      · cases h
      · cases h; exact ⟨rfl, rfl⟩
  · split at h
    · cases h; exact ⟨rfl, rfl⟩
    · cases h; exact ⟨rfl, rfl⟩

/-- The only index fault the gate itself can raise is the rim index panic. -/
theorem neighbor_gate_error (rim : List Nat) (n m : Nat) (at_rim : Bool)
    (v i : Nat) (s : SearchState) (sj sn : Nat) (e : Fault)
    (h : neighbor_gate rim n m at_rim v i s sj sn = .error e) :
    e = .oob := by
  unfold neighbor_gate at h
  split at h
  · split at h
    · cases h
    · split at h
      · cases h; rfl
      · cases h
  · split at h
    · cases h
    · cases h

/-- Neighbour-loop frame lemma: if the recursive callee preserves
    `visited_vertices` and never decreases `visited_rim_vertices`, the loop
    does too. -/
theorem check_neighbors_metrics (f : SearchState → Nat → Except Fault SearchState)
    (hf : ∀ s i s', f s i = .ok s' →
      s'.metrics.visited_vertices = s.metrics.visited_vertices ∧
      s.metrics.visited_rim_vertices ≤ s'.metrics.visited_rim_vertices)
    (rim : List Nat) (n m : Nat) (at_rim : Bool) (v : Nat) :
    ∀ (l : List Nat) (acc res : SearchState × Nat × Nat),
      check_neighbors f rim n m at_rim v l acc = .ok res →
      res.1.metrics.visited_vertices = acc.1.metrics.visited_vertices ∧
      acc.1.metrics.visited_rim_vertices ≤ res.1.metrics.visited_rim_vertices := by
  intro l
  induction l with
  | nil =>
    intro acc res h
    cases h
    exact ⟨rfl, Nat.le_refl _⟩
  | cons i rest ih =>
    intro acc res h
    obtain ⟨s, sj, sn⟩ := acc
    rw [check_neighbors] at h
    split at h
    · split at h
      · exact absurd h (by simp)
      · rename_i s1 sj1 sn1 ci heq
        have hgm := (neighbor_gate_frame rim n m at_rim v i s sj sn _ heq).1
        simp only at hgm
        have h1 : s1.metrics.visited_vertices = s.metrics.visited_vertices := by
          rw [hgm]
        have h2 : s1.metrics.visited_rim_vertices = s.metrics.visited_rim_vertices := by
          rw [hgm]
        cases ci with
        | false =>
          rw [if_neg (by simp)] at h
          have hrec := ih _ res h
          simp only at hrec
          simp only
          omega
        | true =>
          rw [if_pos rfl] at h
          split at h
          · exact absurd h (by simp)
          · rename_i s2 heq2
            have hfm := hf _ _ _ heq2
            simp only at hfm
            have hrec := ih _ res h
            simp only at hrec
            simp only
            omega
    · have hrec := ih _ res h
      simp only at hrec
      simp only
      omega

/-- The entry metrics update does not touch `visited_vertices`. -/
theorem enter_metrics_vv (rim : List Nat) (v : Nat) (mt : Metrics) :
    (enter_metrics rim v mt).visited_vertices = mt.visited_vertices := by
  unfold enter_metrics
  split <;> rfl

/-- On a rim vertex the entry update increments `visited_rim_vertices`. -/
theorem enter_metrics_vrv_true (rim : List Nat) (v : Nat) (mt : Metrics)
    (h : rim.contains v = true) :
    (enter_metrics rim v mt).visited_rim_vertices =
      mt.visited_rim_vertices + 1 := by
  unfold enter_metrics
  rw [if_pos h]

/-- Off the rim the entry update keeps `visited_rim_vertices`. -/
theorem enter_metrics_vrv_false (rim : List Nat) (v : Nat) (mt : Metrics)
    (h : rim.contains v = false) :
    (enter_metrics rim v mt).visited_rim_vertices =
      mt.visited_rim_vertices := by
  unfold enter_metrics
  rw [if_neg (by simpa using h)]

/-- Every successful `check_board` call leaves `visited_vertices` exactly
    as it found it, never decreases `visited_rim_vertices`, and strictly
    increases `visited_rim_vertices` when the entered vertex is a rim
    vertex. -/
theorem check_board_metrics (rim : List Nat) (n m : Nat) :
    ∀ (fuel : Nat) (s : SearchState) (v : Nat) (s' : SearchState),
      check_board rim n m fuel s v = .ok s' →
      s'.metrics.visited_vertices = s.metrics.visited_vertices ∧
      s.metrics.visited_rim_vertices ≤ s'.metrics.visited_rim_vertices ∧
      (rim.contains v = true →
        s.metrics.visited_rim_vertices < s'.metrics.visited_rim_vertices) := by
  intro fuel
  induction fuel with
  | zero => intro s v s' h; exact absurd h (by simp [check_board])
  | succ fuel ih =>
    intro s v s' h
    have he1 := enter_metrics_vv rim v s.metrics
    rw [check_board] at h
    split at h
    · rename_i hcond
      obtain ⟨hr, -, -⟩ := hcond
      have he2 := enter_metrics_vrv_true rim v s.metrics hr
      cases h
      refine ⟨he1, ?_, fun _ => ?_⟩
      · show s.metrics.visited_rim_vertices ≤
          (enter_metrics rim v s.metrics).visited_rim_vertices
        omega
      · show s.metrics.visited_rim_vertices <
          (enter_metrics rim v s.metrics).visited_rim_vertices
        omega
    · split at h
      · cases h
        refine ⟨he1, ?_, ?_⟩
        · show s.metrics.visited_rim_vertices ≤
            (enter_metrics rim v s.metrics).visited_rim_vertices
          cases hr : rim.contains v with
          | false => rw [enter_metrics_vrv_false rim v s.metrics hr]
          | true => rw [enter_metrics_vrv_true rim v s.metrics hr]; omega
        · intro hr
          show s.metrics.visited_rim_vertices <
            (enter_metrics rim v s.metrics).visited_rim_vertices
          rw [enter_metrics_vrv_true rim v s.metrics hr]
          omega
      · split at h
        · exact absurd h (by simp)
        · rename_i s2 sj sn hl
          cases h
          have hf : ∀ s i s', check_board rim n m fuel s i = .ok s' →
              s'.metrics.visited_vertices = s.metrics.visited_vertices ∧
              s.metrics.visited_rim_vertices ≤ s'.metrics.visited_rim_vertices :=
            fun s i s' hh => ⟨(ih s i s' hh).1, (ih s i s' hh).2.1⟩
          have hrec := check_neighbors_metrics _ hf rim n m
            (rim.contains v) v (List.range (n * m)) _ _ hl
          have h1 := hrec.1
          have h2 := hrec.2
          simp only at h1 h2
          refine ⟨?_, ?_, ?_⟩
          · show s2.metrics.visited_vertices = s.metrics.visited_vertices
            rw [h1, he1]
          · show s.metrics.visited_rim_vertices ≤ s2.metrics.visited_rim_vertices
            cases hr : rim.contains v with
            | false =>
              rw [enter_metrics_vrv_false rim v s.metrics hr] at h2; omega
            | true =>
              rw [enter_metrics_vrv_true rim v s.metrics hr] at h2; omega
          · intro hr
            show s.metrics.visited_rim_vertices < s2.metrics.visited_rim_vertices
            rw [enter_metrics_vrv_true rim v s.metrics hr] at h2
            omega

/-- Neighbour-loop fuel lemma: if the callee cannot exhaust its fuel from
    any state whose `visited_vertices` is below `n*m` within reach of the
    fuel, and the callee preserves `visited_vertices`, then the loop never
    reports fuel exhaustion. -/
theorem check_neighbors_no_fuel (f : SearchState → Nat → Except Fault SearchState)
    (n m fuel : Nat)
    (hf1 : ∀ s v, s.metrics.visited_vertices < n * m →
      n * m ≤ s.metrics.visited_vertices + fuel → f s v ≠ .error .fuelOut)
    (hf2 : ∀ s i s', f s i = .ok s' →
      s'.metrics.visited_vertices = s.metrics.visited_vertices)
    (rim : List Nat) (at_rim : Bool) (v k : Nat)
    (hk : k + 1 < n * m) (hkf : n * m ≤ k + 1 + fuel) :
    ∀ (l : List Nat) (acc : SearchState × Nat × Nat),
      acc.1.metrics.visited_vertices = k →
      check_neighbors f rim n m at_rim v l acc ≠ .error .fuelOut := by
  intro l
  induction l with
  | nil =>
    intro acc hacc h
    rw [check_neighbors] at h
    exact absurd h (by simp)
  | cons i rest ih =>
    intro acc hacc h
    obtain ⟨s, sj, sn⟩ := acc
    simp only at hacc
    rw [check_neighbors] at h
    split at h
    · split at h
      · rename_i e heq
        have := neighbor_gate_error rim n m at_rim v i s sj sn e heq
        simp [this] at h
      · rename_i s1 sj1 sn1 ci heq
        have hgm := (neighbor_gate_frame rim n m at_rim v i s sj sn _ heq).1
        simp only at hgm
        have hvv : s1.metrics.visited_vertices = k := by rw [hgm, hacc]
        cases ci with
        | false =>
          rw [if_neg (by simp)] at h
          exact ih _ (by simp [hgm, hacc]) h
        | true =>
          rw [if_pos rfl] at h
          split at h
          · rename_i e heq2
            injection h with h
            refine hf1 _ i ?_ ?_ (by rw [heq2, h]) <;> simp [hvv] <;> omega
          · rename_i s2 heq2
            have hs2 : s2.metrics.visited_vertices = k + 1 := by
              have hpres := hf2 _ _ _ heq2
              simp only at hpres
              simp [hpres, hvv]
            exact ih _ (by simp [hs2]) h
    · exact ih _ (by simp [hacc]) h

/-- Fuel bound for `check_board`: starting from a state whose
    `visited_vertices` lies below `n*m`, fuel `n*m - visited_vertices`
    always suffices — the chain of nested calls never exceeds it, so the
    model never reports `fuelOut` (it can still stop with `oob`, the
    modelled index panic). -/
theorem check_board_no_fuel (rim : List Nat) (n m : Nat) :
    ∀ (fuel : Nat) (s : SearchState) (v : Nat),
      s.metrics.visited_vertices < n * m →
      n * m ≤ s.metrics.visited_vertices + fuel →
      check_board rim n m fuel s v ≠ .error .fuelOut := by
  intro fuel
  induction fuel with
  | zero => intro s v hlt hle; omega
  | succ fuel ih =>
    intro s v hlt hle h
    have he1 := enter_metrics_vv rim v s.metrics
    rw [check_board] at h
    split at h
    · exact absurd h (by simp)
    · split at h
      · exact absurd h (by simp)
      · rename_i hrej hacc
        split at h
        · rename_i e hl
          have hvv1 : s.metrics.visited_vertices + 1 ≠ n * m := by
            rw [he1] at hacc; exact hacc
          injection h with h
          exact check_neighbors_no_fuel (check_board rim n m fuel) n m fuel
            (fun s v h1 h2 => ih s v h1 h2)
            (fun s i s' hh => (check_board_metrics rim n m fuel s i s' hh).1)
            rim (rim.contains v) v s.metrics.visited_vertices
            (by omega) (by omega)
            (List.range (n * m)) _ he1 (by rw [hl, h])
        · exact absurd h (by simp)

/-- The instrumented neighbour gate decides exactly as the plain one. -/
theorem neighbor_gate_g_models (rim : List Nat) (n m : Nat) (at_rim : Bool)
    (v i : Nat) (gs : GState) (sj sn : Nat) :
    (neighbor_gate_g rim n m at_rim v i gs sj sn).map
        (fun r => (proj_g r.1, r.2.1, r.2.2.1, r.2.2.2)) =
      neighbor_gate rim n m at_rim v i (proj_g gs) sj sn := by
  cases at_rim with
  | false =>
    by_cases hci : i ∈ rim
    · simp [neighbor_gate_g, neighbor_gate, hci, Except.map, proj_g]
    · simp [neighbor_gate_g, neighbor_gate, hci, Except.map, proj_g]
  | true =>
    by_cases hci : i ∈ rim
    · simp [neighbor_gate_g, neighbor_gate, hci, Except.map, proj_g]
    · rcases hidx : rim[gs.metrics.visited_rim_vertices]? with - | nr
      · simp [neighbor_gate_g, neighbor_gate, hci, hidx, Except.map, proj_g]
      · rcases hsc : open_return_scan rim nr (List.range (n * m))
            (gs.board, sj, sn, false) with ⟨b2, sj2, sn2, ci⟩
        simp [neighbor_gate_g, neighbor_gate, hci, hidx, hsc, Except.map, proj_g]

/-- The instrumented neighbour loop follows the plain one. -/
theorem check_neighbors_g_models
    (fg : GState → Nat → GState × Option Fault)
    (f : SearchState → Nat → Except Fault SearchState)
    (hf : ∀ gs i, g_to_except (fg gs i) = f (proj_g gs) i)
    (rim : List Nat) (n m : Nat) (at_rim : Bool) (v : Nat) :
    ∀ (l : List Nat) (gs : GState) (sj sn : Nat),
      gacc_to_except (check_neighbors_g fg rim n m at_rim v l (gs, sj, sn)) =
        check_neighbors f rim n m at_rim v l (proj_g gs, sj, sn) := by
  intro l
  induction l with
  | nil => intro gs sj sn; rfl
  | cons i rest ih =>
    intro gs sj sn
    rw [check_neighbors_g, check_neighbors]
    have hcond : bget (proj_g gs).board v i = bget gs.board v i := rfl
    have hcond2 : bget (proj_g gs).board i i = bget gs.board i i := rfl
    rw [hcond, hcond2]
    split
    · have hgate := neighbor_gate_g_models rim n m at_rim v i gs sj sn
      rcases hgg : neighbor_gate_g rim n m at_rim v i gs sj sn with e | r
      · rw [hgg] at hgate
        simp only [Except.map] at hgate
        rw [← hgate]
        rfl
      · rw [hgg] at hgate
        simp only [Except.map] at hgate
        rw [← hgate]
        obtain ⟨g1, gj, gn, gc⟩ := r
        simp only
        split
        · have hstep : f { proj_g g1 with metrics :=
              { (proj_g g1).metrics with
                visited_vertices := (proj_g g1).metrics.visited_vertices + 1 } } i =
              g_to_except (fg { g1 with metrics :=
                { g1.metrics with
                  visited_vertices := g1.metrics.visited_vertices + 1 } } i) :=
            (hf { g1 with metrics :=
              { g1.metrics with
                visited_vertices := g1.metrics.visited_vertices + 1 } } i).symm
          rcases hfr : fg { g1 with metrics :=
              { g1.metrics with
                visited_vertices := g1.metrics.visited_vertices + 1 } } i
            with ⟨s2, e?⟩
          rw [hfr] at hstep
          rcases e? with - | e
          · rw [hstep]
            exact ih { s2 with metrics :=
              { s2.metrics with
                visited_vertices := s2.metrics.visited_vertices - 1 } } gj gn
          · rw [hstep]
            rfl
        · exact ih g1 gj gn
    · exact ih gs sj sn

/-- The backtracking tail of one instrumented call follows the plain one. -/
theorem check_board_g_models_loop (b0 : Nat) (rim : List Nat) (n m fuel : Nat)
    (ih : ∀ gs v, g_to_except (check_board_g b0 rim n m fuel gs v) =
      check_board rim n m fuel (proj_g gs) v)
    (atr : Bool) (v : Nat) (g : GState) (eoff : Nat) :
    g_to_except
      (match check_neighbors_g (check_board_g b0 rim n m fuel) rim n m atr v
          (List.range (n * m)) (g, 0, 0) with
      | ((s2, _, _), some e) => (s2, some e)
      | ((s2, sj, sn), none) =>
        ({ s2 with
            board := bset (bset s2.board v v false) sj sn false,
            solution_path := s2.solution_path.dropLast,
            metrics := { s2.metrics with
              fail_counter_3 := s2.metrics.fail_counter_3 + 1 },
            all_restored := s2.all_restored &&
              (off_diag (bset (bset s2.board v v false) sj sn false) == eoff) },
          none)) =
      match check_neighbors (check_board rim n m fuel) rim n m atr v
          (List.range (n * m)) (proj_g g, 0, 0) with
      | .error e => .error e
      | .ok (s2, sj, sn) =>
        .ok { board := bset (bset s2.board v v false) sj sn false,
              solution_path := s2.solution_path.dropLast,
              metrics := { s2.metrics with
                fail_counter_3 := s2.metrics.fail_counter_3 + 1 } } := by
  have hloop := check_neighbors_g_models (check_board_g b0 rim n m fuel)
    (check_board rim n m fuel) ih rim n m atr v (List.range (n * m)) g 0 0
  rcases hlr : check_neighbors_g (check_board_g b0 rim n m fuel) rim n m atr v
      (List.range (n * m)) (g, 0, 0) with ⟨⟨s2, sj, sn⟩, e?⟩
  rw [hlr] at hloop
  rcases e? with - | e
  · rw [← hloop]
    rfl
  · rw [← hloop]
    rfl

/-- The instrumented search is the plain search with ghost observations:
    projecting away the ghost fields yields exactly `check_board`. -/
theorem check_board_g_models (b0 : Nat) (rim : List Nat) (n m : Nat) :
    ∀ (fuel : Nat) (gs : GState) (v : Nat),
      g_to_except (check_board_g b0 rim n m fuel gs v) =
        check_board rim n m fuel (proj_g gs) v := by
  intro fuel
  induction fuel with
  | zero => intro gs v; rfl
  | succ fuel ih =>
    intro gs v
    simp only [check_board_g, check_board, enter_metrics, proj_g]
    split
    · split
      · rfl
      · split
        · rfl
        · exact check_board_g_models_loop b0 rim n m fuel ih _ v _ _
    · split
      · rename_i h hc
        exact absurd hc.1 h
      · split
        · rfl
        · exact check_board_g_models_loop b0 rim n m fuel ih _ v _ _

/-- The rim walk of `initialize_board` in the spec's four clockwise
    segments (top row, right column, bottom row, left column). -/
theorem rim_vertices_eq_spec (n m : Nat) (hn : 1 ≤ n) (hm : 1 ≤ m) :
    rim_vertices n m =
      rim_top_spec n ++ rim_right_spec n m ++ rim_bottom_spec n m
        ++ rim_left_spec n m := by
  have hB : (List.range' 1 (m - 1)).map (fun j => (j + 1) * n - 1)
      = (List.range' 1 (m - 1)).map (fun j => j * n + (n - 1)) := by
    apply List.map_congr_left
    intro j hj
    have h : (j + 1) * n = j * n + n := by ring
    rw [h]
    generalize j * n = t
    omega
  have hC : (List.range' 1 (n - 1)).map (fun i => n * m - 1 - i)
      = (List.range' 1 (n - 1)).map (fun i => (m - 1) * n + (n - 1) - i) := by
    apply List.map_congr_left
    intro i hi
    have h : (m - 1) * n + n = n * m := by
      have h2 : ((m - 1) + 1) * n = m * n := by
        rw [Nat.sub_add_cancel hm]
      calc (m - 1) * n + n = ((m - 1) + 1) * n := by ring
        _ = m * n := h2
        _ = n * m := Nat.mul_comm m n
    revert h
    generalize (m - 1) * n = P
    generalize n * m = V
    intro h
    omega
  have hD : (List.range' 1 (m - 2)).map (fun j => n * (m - 1) - j * n)
      = (List.range' 1 (m - 2)).map (fun j => (m - 1 - j) * n) := by
    apply List.map_congr_left
    intro j hj
    rw [Nat.mul_comm n (m - 1)]
    exact (Nat.sub_mul (m - 1) j n).symm
  unfold rim_vertices rim_top_spec rim_right_spec rim_bottom_spec rim_left_spec
  rw [hB, hC, hD]

/-- Length of the rim walk. -/
theorem rim_vertices_length (n m : Nat) (hn : 1 ≤ n) (hm : 2 ≤ m) :
    (rim_vertices n m).length = 2 * n + 2 * m - 4 := by
  unfold rim_vertices
  simp only [List.length_append, List.length_map, List.length_range,
    List.length_range']
  omega

/-- Membership in the top segment. -/
theorem mem_rim_top (n v : Nat) : v ∈ rim_top_spec n ↔ v < n :=
  List.mem_range

/-- Membership in the right-column segment, by row and column. -/
theorem mem_rim_right (n m v : Nat) (hn : 0 < n) :
    v ∈ rim_right_spec n m ↔
      v % n = n - 1 ∧ 1 ≤ v / n ∧ v / n < m := by
  unfold rim_right_spec
  simp only [List.mem_map, List.mem_range'_1]
  constructor
  · rintro ⟨j, ⟨hj1, hj2⟩, rfl⟩
    have hmod : (j * n + (n - 1)) % n = n - 1 := by
      rw [Nat.mul_comm j n, Nat.mul_add_mod]
      exact Nat.mod_eq_of_lt (by omega)
    have hdiv : (j * n + (n - 1)) / n = j := by
      rw [Nat.mul_comm j n, Nat.mul_add_div hn, Nat.div_eq_of_lt (by omega)]
      omega
    rw [hmod, hdiv]
    omega
  · rintro ⟨h1, h2, h3⟩
    refine ⟨v / n, ⟨h2, by omega⟩, ?_⟩
    have hdm := Nat.div_add_mod v n
    rw [h1] at hdm
    rw [Nat.mul_comm]
    exact hdm

/-- Membership in the bottom-row segment, by row and column. -/
theorem mem_rim_bottom (n m v : Nat) (hn : 0 < n) :
    v ∈ rim_bottom_spec n m ↔
      v / n = m - 1 ∧ v % n < n - 1 := by
  unfold rim_bottom_spec
  simp only [List.mem_map, List.mem_range'_1]
  constructor
  · rintro ⟨i, ⟨hi1, hi2⟩, rfl⟩
    have hrew : (m - 1) * n + (n - 1) - i = (m - 1) * n + (n - 1 - i) := by
      rw [Nat.add_sub_assoc (by omega)]
    rw [hrew]
    have hmod : ((m - 1) * n + (n - 1 - i)) % n = n - 1 - i := by
      rw [Nat.add_comm ((m - 1) * n) (n - 1 - i), Nat.add_mul_mod_self_right]
      exact Nat.mod_eq_of_lt (by omega)
    have hdiv : ((m - 1) * n + (n - 1 - i)) / n = m - 1 := by
      rw [Nat.add_comm ((m - 1) * n) (n - 1 - i), Nat.add_mul_div_right _ _ hn,
        Nat.div_eq_of_lt (by omega)]
      omega
    rw [hmod, hdiv]
    omega
  · rintro ⟨h1, h2⟩
    refine ⟨n - 1 - v % n, ⟨by omega, by omega⟩, ?_⟩
    have hdm := Nat.div_add_mod v n
    rw [h1] at hdm
    have hvn : v % n < n := Nat.mod_lt v hn
    revert hdm
    generalize hP : (m - 1) * n = P
    rw [Nat.mul_comm n (m - 1), hP]
    intro hdm
    omega

/-- Membership in the left-column segment, by row and column. -/
theorem mem_rim_left (n m v : Nat) (hn : 0 < n) :
    v ∈ rim_left_spec n m ↔
      v % n = 0 ∧ 1 ≤ v / n ∧ v / n ≤ m - 2 := by
  unfold rim_left_spec
  simp only [List.mem_map, List.mem_range'_1]
  constructor
  · rintro ⟨j, ⟨hj1, hj2⟩, rfl⟩
    have hmod : (m - 1 - j) * n % n = 0 := Nat.mul_mod_left _ _
    have hdiv : (m - 1 - j) * n / n = m - 1 - j := Nat.mul_div_cancel _ hn
    rw [hmod, hdiv]
    omega
  · rintro ⟨h1, h2, h3⟩
    refine ⟨m - 1 - v / n, ⟨by omega, by omega⟩, ?_⟩
    have hdm := Nat.div_add_mod v n
    rw [h1] at hdm
    have hj : m - 1 - (m - 1 - v / n) = v / n := by omega
    rw [hj, Nat.mul_comm]
    rw [Nat.add_zero] at hdm
    exact hdm

/-- The rim walk has no duplicate vertex when `2 ≤ n` and `4 ≤ m`. -/
theorem rim_vertices_nodup (n m : Nat) (hn2 : 2 ≤ n) (hm4 : 4 ≤ m) :
    (rim_vertices n m).Nodup := by
  have hn : 0 < n := by omega
  rw [rim_vertices_eq_spec n m (by omega) (by omega)]
  have hA : (rim_top_spec n).Nodup := List.nodup_range n
  have hB : (rim_right_spec n m).Nodup := by
    refine List.Nodup.map_on ?_ (List.nodup_range' _ _)
    intro j1 _ j2 _ heq
    have := Nat.add_right_cancel heq
    exact Nat.eq_of_mul_eq_mul_right hn this
  have hC : (rim_bottom_spec n m).Nodup := by
    refine List.Nodup.map_on ?_ (List.nodup_range' _ _)
    intro i1 h1 i2 h2 heq
    rw [List.mem_range'_1] at h1 h2
    revert heq
    generalize (m - 1) * n = P
    intro heq
    omega
  have hD : (rim_left_spec n m).Nodup := by
    refine List.Nodup.map_on ?_ (List.nodup_range' _ _)
    intro j1 h1 j2 h2 heq
    rw [List.mem_range'_1] at h1 h2
    have := Nat.eq_of_mul_eq_mul_right hn heq
    omega
  refine List.Nodup.append
    (List.Nodup.append (List.Nodup.append hA hB ?_) hC ?_) hD ?_
  · intro v hvA hvB
    rw [mem_rim_top] at hvA
    rw [mem_rim_right n m v hn] at hvB
    have hq0 : v / n = 0 := Nat.div_eq_of_lt hvA
    omega
  · rw [List.disjoint_append_left]
    constructor
    · intro v hvA hvC
      rw [mem_rim_top] at hvA
      rw [mem_rim_bottom n m v hn] at hvC
      have hq0 : v / n = 0 := Nat.div_eq_of_lt hvA
      omega
    · intro v hvB hvC
      rw [mem_rim_right n m v hn] at hvB
      rw [mem_rim_bottom n m v hn] at hvC
      omega
  · rw [List.disjoint_append_left, List.disjoint_append_left]
    refine ⟨⟨?_, ?_⟩, ?_⟩
    · intro v hvA hvD
      rw [mem_rim_top] at hvA
      rw [mem_rim_left n m v hn] at hvD
      have hq0 : v / n = 0 := Nat.div_eq_of_lt hvA
      omega
    · intro v hvB hvD
      rw [mem_rim_right n m v hn] at hvB
      rw [mem_rim_left n m v hn] at hvD
      omega
    · intro v hvC hvD
      rw [mem_rim_bottom n m v hn] at hvC
      rw [mem_rim_left n m v hn] at hvD
      omega

/-- The rim walk contains exactly the boundary vertices when `2 ≤ n` and
    `4 ≤ m`. -/
theorem mem_rim_vertices (n m : Nat) (hn2 : 2 ≤ n) (hm4 : 4 ≤ m) :
    ∀ v, v ∈ rim_vertices n m ↔ v < n * m ∧ on_boundary n m v := by
  intro v
  have hn : 0 < n := by omega
  rw [rim_vertices_eq_spec n m (by omega) (by omega),
    List.mem_append, List.mem_append, List.mem_append,
    mem_rim_top, mem_rim_right n m v hn, mem_rim_bottom n m v hn,
    mem_rim_left n m v hn]
  unfold on_boundary
  have hq0 : v < n ↔ v / n = 0 := by
    constructor
    · exact Nat.div_eq_of_lt
    · intro h
      have hdm := Nat.div_add_mod v n
      have hvn : v % n < n := Nat.mod_lt v hn
      rw [h, Nat.mul_zero, Nat.zero_add] at hdm
      omega
  have hql : v < n * m ↔ v / n < m := by
    rw [Nat.div_lt_iff_lt_mul hn, Nat.mul_comm]
  have hvn : v % n < n := Nat.mod_lt v hn
  rw [hq0, hql]
  revert hvn
  generalize v / n = q
  generalize v % n = r
  intro hvn
  omega

/-- Full form of the entry metrics update on a rim vertex. -/
theorem enter_metrics_true_eq (rim : List Nat) (v : Nat) (mt : Metrics)
    (h : rim.contains v = true) :
    enter_metrics rim v mt =
      { mt with
        check_counter := mt.check_counter + 1,
        visited_rim_vertices := mt.visited_rim_vertices + 1 } := by
  unfold enter_metrics
  rw [if_pos h]

set_option maxRecDepth 100000 in
/-- C1: the spec's calibration value for the 2 x 6 grid is 16 accepted
    tours, but the program finds exactly 1: the directional rim pruning of
    `initialize_board` collapses onto the two rim columns when `n = 2`,
    deleting every horizontal edge of the middle rows, so only the single
    clockwise rim circuit survives.  (Fuel `2*6 = 12` suffices by
    `check_board_no_fuel`.) -/
theorem C1_two_by_six_gives_one_solution :
    run_solutions (run_board 2 6 12) = some 1 ∧ (1 : Int) ≠ 16 := by
  constructor
  · decide
  · decide

set_option maxRecDepth 100000 in
/-- C3: a call that opens no return edge still executes
    `board[store_j][store_next_rim_vertice] = false` with the initial store
    values `(0, 0)` on exit, clearing vertex 0's visited flag.  The first
    recursive call of the 2 x 6 run enters with `board[0][0] = true` and
    returns with `board[0][0] = false`, so the board is not restored. -/
theorem C3_first_child_clears_board00 :
    bget first_child_entry.board 0 0 = true ∧
    result_board00 (check_board (rim_vertices 2 6) 2 6 11 first_child_entry 1) =
      some false := by
  constructor
  · decide
  · decide

/-- C5: entering a rim vertex when the incremented rim counter reaches the
    rim length while unvisited vertices remain returns immediately with
    only `check_counter`, `visited_rim_vertices` and `fail_counter_2`
    incremented: the board, the solution path and all other metrics are
    untouched, and no recursive call is made. -/
theorem C5_rim_exhausted_rejects_immediately (rim : List Nat) (n m fuel : Nat)
    (s : SearchState) (v : Nat)
    (hv : rim.contains v = true)
    (hc : s.metrics.visited_rim_vertices + 1 = rim.length)
    (hlt : s.metrics.visited_vertices + 1 < n * m) :
    check_board rim n m (fuel + 1) s v =
      .ok { s with metrics :=
        { s.metrics with
          check_counter := s.metrics.check_counter + 1,
          visited_rim_vertices := s.metrics.visited_rim_vertices + 1,
          fail_counter_2 := s.metrics.fail_counter_2 + 1 } } := by
  have hcond : rim.contains v = true ∧
      (enter_metrics rim v s.metrics).visited_rim_vertices = rim.length ∧
      (enter_metrics rim v s.metrics).visited_vertices + 1 < n * m :=
    ⟨hv, by rw [enter_metrics_vrv_true rim v s.metrics hv, hc],
      by rw [enter_metrics_vv rim v s.metrics]; exact hlt⟩
  simp only [check_board]
  rw [if_pos hcond, enter_metrics_true_eq rim v s.metrics hv]

/-- Witness for C5 at a concrete input. -/
theorem C5_witness :
    check_board [0] 5 5 1 { board := 0, solution_path := [], metrics := Metrics.new } 0 =
      .ok { board := 0, solution_path := [],
            metrics := { Metrics.new with
                         check_counter := 1,
                         visited_rim_vertices := 1, fail_counter_2 := 1 } } :=
  C5_rim_exhausted_rejects_immediately [0] 5 5 0
    { board := 0, solution_path := [], metrics := Metrics.new } 0
    (by decide) (by decide) (by decide)

/-- C6: on every valid board size the search terminates within recursion
    depth `n*m`: with any fuel of at least `n*m` the model never reports
    fuel exhaustion (each recursive call increments `visited_vertices`, and
    a callee entered with `visited_vertices + 1 = n*m` returns without
    recursing). -/
theorem C6_depth_bounded_by_nm (n m fuel : Nat)
    (hv : validate_board_size n m = true) (hf : n * m ≤ fuel) :
    run_board n m fuel ≠ .error .fuelOut := by
  have h12 : 12 ≤ n * m := ((validate_board_size_eq n m).1 hv).2.2.2.1
  apply check_board_no_fuel
  · show Metrics.new.visited_vertices < n * m
    show 0 < n * m
    omega
  · show n * m ≤ Metrics.new.visited_vertices + fuel
    show n * m ≤ 0 + fuel
    omega

/-- Witness for C6 at a concrete input. -/
theorem C6_witness :
    validate_board_size 2 6 = true ∧ 2 * 6 ≤ 12 ∧
      run_board 2 6 12 ≠ .error .fuelOut :=
  ⟨by decide, by decide, C6_depth_bounded_by_nm 2 6 12 (by decide) (by decide)⟩

/-- C7: `validate_board_size` accepts exactly the pairs with `n ≤ 20`,
    `m ≤ 20`, `n ≤ m`, `12 ≤ n*m ≤ 128` and `n*m` even; in particular it
    rejects every pair with odd product, so the search core is never
    invoked on an odd-sized grid. -/
theorem C7_validate_board_size_characterisation :
    (∀ n m : Nat, validate_board_size n m = true ↔
      n ≤ 20 ∧ m ≤ 20 ∧ n ≤ m ∧ 12 ≤ n * m ∧ n * m ≤ 128 ∧ n * m % 2 = 0) ∧
    (∀ n m : Nat, n * m % 2 = 1 → validate_board_size n m = false) := by
  refine ⟨validate_board_size_eq, fun n m hodd => ?_⟩
  cases hval : validate_board_size n m with
  | false => rfl
  | true =>
    have := ((validate_board_size_eq n m).1 hval).2.2.2.2.2
    omega

/-- Witness for C7 at a concrete input. -/
theorem C7_witness : validate_board_size 3 5 = false :=
  C7_validate_board_size_characterisation.2 3 5 (by decide)

set_option maxRecDepth 100000 in
/-- C9: the claim that `rim_vertices[metrics.visited_rim_vertices]` is
    always in bounds is false on the code: `visited_rim_vertices` is a
    monotone global counter, so on the valid 3 x 4 board the run reads the
    rim list at an index at or beyond its length 10 and the model stops
    with the index fault (the Rust program panics there). -/
theorem C9_rim_index_out_of_bounds :
    validate_board_size 3 4 = true ∧
      run_fault (run_board 3 4 12) = some .oob := by
  constructor
  · decide
  · decide

/-- C10: `visited_rim_vertices` never decreases over any successful call
    (it counts every rim entry of the whole search tree and is not
    decremented on backtrack), increases strictly when the entered vertex
    is a rim vertex, while `visited_vertices` is restored to its entry
    value by every call. -/
theorem C10_visited_rim_vertices_monotone (rim : List Nat) (n m fuel : Nat)
    (s : SearchState) (v : Nat) (s' : SearchState)
    (h : check_board rim n m fuel s v = .ok s') :
    s.metrics.visited_rim_vertices ≤ s'.metrics.visited_rim_vertices ∧
    (rim.contains v = true →
      s.metrics.visited_rim_vertices < s'.metrics.visited_rim_vertices) ∧
    s'.metrics.visited_vertices = s.metrics.visited_vertices :=
  ⟨(check_board_metrics rim n m fuel s v s' h).2.1,
   (check_board_metrics rim n m fuel s v s' h).2.2,
   (check_board_metrics rim n m fuel s v s' h).1⟩

/-- Witness for C10 at a concrete input (a rim-exhausted rejecting call). -/
theorem C10_witness :
    ({ board := 0, solution_path := [], metrics := Metrics.new } :
        SearchState).metrics.visited_rim_vertices ≤
      ({ board := 0, solution_path := [],
         metrics := { Metrics.new with
                      check_counter := 1,
                      visited_rim_vertices := 1, fail_counter_2 := 1 } } :
        SearchState).metrics.visited_rim_vertices ∧
    (([0] : List Nat).contains 0 = true →
      ({ board := 0, solution_path := [], metrics := Metrics.new } :
          SearchState).metrics.visited_rim_vertices <
        ({ board := 0, solution_path := [],
           metrics := { Metrics.new with
                        check_counter := 1,
                        visited_rim_vertices := 1, fail_counter_2 := 1 } } :
          SearchState).metrics.visited_rim_vertices) ∧
    ({ board := 0, solution_path := [],
       metrics := { Metrics.new with
                    check_counter := 1,
                    visited_rim_vertices := 1, fail_counter_2 := 1 } } :
        SearchState).metrics.visited_vertices =
      ({ board := 0, solution_path := [], metrics := Metrics.new } :
        SearchState).metrics.visited_vertices :=
  C10_visited_rim_vertices_monotone [0] 5 5 1
    { board := 0, solution_path := [], metrics := Metrics.new } 0
    { board := 0, solution_path := [],
      metrics := { Metrics.new with
                   check_counter := 1,
                   visited_rim_vertices := 1, fail_counter_2 := 1 } }
    (by rfl)

set_option maxRecDepth 100000 in
/-- C4: the claimed invariant "at most one return edge is open at any
    time" is violated: on the valid 3 x 6 board some call of the
    instrumented run begins with at least two off-diagonal board entries
    beyond the `initialize_board` edges, i.e. two return edges are open at
    the same time (one per nested rim departure on the call stack). -/
theorem C4_two_return_edges_open_at_once :
    validate_board_size 3 6 = true ∧ (run_g 3 6 18).1.multi_open = true := by
  constructor
  · decide
  · decide

set_option maxRecDepth 100000 in
set_option maxHeartbeats 12000000 in
/-- Restoration sweep, `n = 1` slice. -/
theorem sweep_restored_1 :
    ∀ m, m < 21 → validate_board_size 1 m = true → 1 * m ≤ 64 →
      (run_g 1 m (1 * m)).1.all_restored = true := by
  decide

set_option maxRecDepth 100000 in
set_option maxHeartbeats 12000000 in
/-- Restoration sweep, `n = 2` slice. -/
theorem sweep_restored_2 :
    ∀ m, m < 21 → validate_board_size 2 m = true → 2 * m ≤ 64 →
      (run_g 2 m (2 * m)).1.all_restored = true := by
  decide

set_option maxRecDepth 100000 in
set_option maxHeartbeats 12000000 in
/-- Restoration sweep, `n = 3` slice. -/
theorem sweep_restored_3 :
    ∀ m, m < 21 → validate_board_size 3 m = true → 3 * m ≤ 64 →
      (run_g 3 m (3 * m)).1.all_restored = true := by
  decide

set_option maxRecDepth 100000 in
set_option maxHeartbeats 12000000 in
/-- Restoration sweep, `n = 4` slice. -/
theorem sweep_restored_4 :
    ∀ m, m < 21 → validate_board_size 4 m = true → 4 * m ≤ 64 →
      (run_g 4 m (4 * m)).1.all_restored = true := by
  decide

set_option maxRecDepth 100000 in
set_option maxHeartbeats 12000000 in
/-- Restoration sweep, `n = 5` slice. -/
theorem sweep_restored_5 :
    ∀ m, m < 21 → validate_board_size 5 m = true → 5 * m ≤ 64 →
      (run_g 5 m (5 * m)).1.all_restored = true := by
  decide

set_option maxRecDepth 100000 in
set_option maxHeartbeats 12000000 in
/-- Restoration sweep, `n = 6` slice. -/
theorem sweep_restored_6 :
    ∀ m, m < 21 → validate_board_size 6 m = true → 6 * m ≤ 64 →
      (run_g 6 m (6 * m)).1.all_restored = true := by
  decide

set_option maxRecDepth 100000 in
set_option maxHeartbeats 12000000 in
/-- Restoration sweep, `n = 7` slice. -/
theorem sweep_restored_7 :
    ∀ m, m < 21 → validate_board_size 7 m = true → 7 * m ≤ 64 →
      (run_g 7 m (7 * m)).1.all_restored = true := by
  decide

set_option maxRecDepth 100000 in
set_option maxHeartbeats 12000000 in
/-- Restoration sweep, `n = 8` slice. -/
theorem sweep_restored_8 :
    ∀ m, m < 21 → validate_board_size 8 m = true → 8 * m ≤ 64 →
      (run_g 8 m (8 * m)).1.all_restored = true := by
  decide

/-- Supporting observation for C4: although several nested calls can have
    return edges open simultaneously, every completed call of the
    instrumented run restores all off-diagonal board entries — in
    particular it closes any return edge it opened — by the time it
    returns, over the complete runs of every valid board with `n*m ≤ 64`
    (fuel `n*m` suffices by `check_board_no_fuel`; larger boards exceed
    the type checker's reduction depth). -/
theorem every_call_restores_off_diagonal_le_64 :
    ∀ n, n < 21 → ∀ m, m < 21 → validate_board_size n m = true → n * m ≤ 64 →
      (run_g n m (n * m)).1.all_restored = true := by
  intro n hn m hm hv hle
  obtain ⟨hn20, hm20, hnm, h12, h128, heven⟩ := (validate_board_size_eq n m).mp hv
  have hn8 : n ≤ 8 := by
    by_contra hgt
    have h9 : 9 ≤ n := by omega
    have h81 : 81 ≤ n * m := by
      calc 81 ≤ 9 * m := by omega
        _ ≤ n * m := Nat.mul_le_mul_right m h9
    exact absurd (le_trans h81 hle) (by decide)
  interval_cases n
  · have h0 : 0 * m = 0 := Nat.zero_mul m
    omega
  · exact sweep_restored_1 m hm hv hle
  · exact sweep_restored_2 m hm hv hle
  · exact sweep_restored_3 m hm hv hle
  · exact sweep_restored_4 m hm hv hle
  · exact sweep_restored_5 m hm hv hle
  · exact sweep_restored_6 m hm hv hle
  · exact sweep_restored_7 m hm hv hle
  · exact sweep_restored_8 m hm hv hle

set_option maxRecDepth 100000 in
/-- The restoration observation instantiated at the 3 x 6 board. -/
theorem every_call_restores_off_diagonal_3_6 :
    validate_board_size 3 6 = true ∧ 3 * 6 ≤ 64 ∧
      (run_g 3 6 (3 * 6)).1.all_restored = true :=
  ⟨by decide, by decide,
    every_call_restores_off_diagonal_le_64 3 (by decide) 6 (by decide)
      (by decide) (by decide)⟩

/-- C8 fails as stated: `(n, m) = (1, 12)` passes `validate_board_size`,
    yet the rim walk of `initialize_board` contains duplicates (for `n = 1`
    the right-column and left-column segments emit the same vertices), so
    it does not contain every boundary vertex exactly once. -/
theorem C8_n_one_rim_has_duplicates :
    validate_board_size 1 12 = true ∧ ¬ (rim_vertices 1 12).Nodup := by
  constructor
  · decide
  · decide

/-- C8 amended: for every valid `(n, m)` with `2 ≤ n` the rim walk has
    length `2n + 2m - 4`, is exactly the four clockwise segments of the
    spec (top row left to right, right column top to bottom, bottom row
    right to left, left column bottom to top), has no repeated vertex, and
    contains exactly the boundary vertices of the grid. -/
theorem C8_amended_rim_clockwise (n m : Nat)
    (hv : validate_board_size n m = true) (hn : 2 ≤ n) :
    (rim_vertices n m).length = 2 * n + 2 * m - 4 ∧
    rim_vertices n m =
      rim_top_spec n ++ rim_right_spec n m ++ rim_bottom_spec n m
        ++ rim_left_spec n m ∧
    (rim_vertices n m).Nodup ∧
    (∀ v, v ∈ rim_vertices n m ↔ v < n * m ∧ on_boundary n m v) := by
  obtain ⟨-, -, hnm, h12, -, -⟩ := (validate_board_size_eq n m).1 hv
  have hm4 : 4 ≤ m := by
    by_contra hc
    have hmul : n * m ≤ 3 * 3 :=
      Nat.mul_le_mul (by omega) (by omega)
    omega
  exact ⟨rim_vertices_length n m (by omega) (by omega),
    rim_vertices_eq_spec n m (by omega) (by omega),
    rim_vertices_nodup n m hn hm4,
    mem_rim_vertices n m hn hm4⟩

/-- Witness for the amended C8 at a concrete input. -/
theorem C8_amended_witness :
    validate_board_size 3 4 = true ∧ 2 ≤ 3 ∧
      ((rim_vertices 3 4).length = 2 * 3 + 2 * 4 - 4 ∧
       rim_vertices 3 4 =
         rim_top_spec 3 ++ rim_right_spec 3 4 ++ rim_bottom_spec 3 4
           ++ rim_left_spec 3 4 ∧
       (rim_vertices 3 4).Nodup ∧
       (∀ v, v ∈ rim_vertices 3 4 ↔ v < 3 * 4 ∧ on_boundary 3 4 v)) :=
  ⟨by decide, by decide,
    C8_amended_rim_clockwise 3 4 (by decide) (by decide)⟩

end RoundTrip
